import Mathlib

/-!
Verification of the torrent-creator core against its specification.

The TypeScript source is embedded shallowly:

* JavaScript strings are lists of UTF-16 code units (`List Nat`), matching
  `charCodeAt` / `.length` semantics exactly.
* Byte buffers (`Uint8Array`) are `List Nat`.
* The wasm SHA-1 kernel is abstracted as a parameter
  `sha1 : List Nat → List Nat`; the worker always copies exactly 20 bytes
  out of the wasm heap, which `heapBytes20` reproduces.
* The browser's WHATWG URL parser (`new URL`) is abstracted as a parameter
  `parseURL : List Nat → Option URLRecord`.
* Asynchronous code is modelled by explicit state passing; concurrent
  hash jobs write to disjoint, pre-reserved ranges of the piece table, so a
  sequential model in dispatch order is observationally equivalent.
-/

namespace TorrentCreator

/-- A JavaScript string: its sequence of UTF-16 code units. -/
abbrev JSStr := List Nat

/-- Embed an ASCII Lean string literal as a list of UTF-16 code units. -/
def strLit (s : String) : JSStr := s.data.map Char.toNat

/-- `toUTF8Bytes` from `Bencode.ts`: converts UTF-16 code units to UTF-8
bytes, combining surrogate pairs.  A lone high surrogate at the end of the
string reads `charCodeAt` out of range (`NaN`), and `NaN & 0x3ff` is `0` in
JavaScript, which the last branch reproduces. -/
def toUTF8Bytes : JSStr → List Nat
  | [] => []
  | c :: rest =>
    if c < 0x80 then
      c :: toUTF8Bytes rest
    else if c < 0x800 then
      (0xc0 ||| (c >>> 6)) :: (0x80 ||| (c &&& 0x3f)) :: toUTF8Bytes rest
    else if c < 0xd800 ∨ 0xe000 ≤ c then
      (0xe0 ||| (c >>> 12)) :: (0x80 ||| ((c >>> 6) &&& 0x3f)) :: (0x80 ||| (c &&& 0x3f)) ::
        toUTF8Bytes rest
    else
      match rest with
      | c2 :: rest2 =>
        let cp := 0x10000 + (((c &&& 0x3ff) <<< 10) ||| (c2 &&& 0x3ff))
        (0xf0 ||| (cp >>> 18)) :: (0x80 ||| ((cp >>> 12) &&& 0x3f)) ::
          (0x80 ||| ((cp >>> 6) &&& 0x3f)) :: (0x80 ||| (cp &&& 0x3f)) :: toUTF8Bytes rest2
      | [] =>
        let cp := 0x10000 + ((c &&& 0x3ff) <<< 10)
        [0xf0 ||| (cp >>> 18), 0x80 ||| ((cp >>> 12) &&& 0x3f),
          0x80 ||| ((cp >>> 6) &&& 0x3f), 0x80 ||| (cp &&& 0x3f)]

/-- `stringByteCountUTF8` from `Bencode.ts`: the UTF-8 byte length of a
string, walking code units and skipping the low half of surrogate pairs. -/
def stringByteCountUTF8 : JSStr → Nat
  | [] => 0
  | c :: rest =>
    if c < 0x80 then 1 + stringByteCountUTF8 rest
    else if c < 0x800 then 2 + stringByteCountUTF8 rest
    else if c < 0xd800 ∨ 0xe000 ≤ c then 3 + stringByteCountUTF8 rest
    else
      match rest with
      | _ :: rest2 => 4 + stringByteCountUTF8 rest2
      | [] => 4

/-- Digit recursion with explicit fuel so that the kernel can evaluate it;
`n / 10 < n` for `n ≥ 10`, so fuel `n + 1` always suffices. -/
def natDecimalAux : Nat → Nat → List Nat
  | 0, _ => []
  | fuel + 1, n =>
    if n < 10 then [48 + n] else natDecimalAux fuel (n / 10) ++ [48 + n % 10]

/-- ASCII decimal digits of a natural number, as `Number.prototype.toString`
produces for non-negative integers. -/
def natDecimalBytes (n : Nat) : List Nat := natDecimalAux (n + 1) n

/-- ASCII decimal rendering of an integer (`Number.prototype.toString`). -/
def intDecimalBytes (n : Int) : List Nat :=
  if n < 0 then 45 :: natDecimalBytes (-n).toNat else natDecimalBytes n.toNat

/-- The Bencode value tree (`IBencodeObject` in `Bencode.ts`).  A dictionary
carries its key/value pairs in insertion order; JavaScript objects cannot
hold duplicate keys, so theorems about dictionaries assume distinct keys. -/
inductive BVal where
  | int (n : Int)
  | str (s : JSStr)
  | bytes (b : List Nat)
  | list (l : List BVal)
  | dict (kvs : List (JSStr × BVal))

/-- Strict lexicographic comparison of code-unit sequences: exactly the
JavaScript `<` on strings, which the default `Array.prototype.sort`
comparator uses.  A proper prefix is smaller. -/
def cuLt : List Nat → List Nat → Bool
  | [], [] => false
  | [], _ :: _ => true
  | _ :: _, [] => false
  | a :: as, b :: bs => a < b || (a = b && cuLt as bs)

/-- Non-strict counterpart of `cuLt`. -/
def cuLe (a b : JSStr) : Bool := !cuLt b a

/-- `BencodeString.encode`: UTF-8 byte count in decimal, `:`, UTF-8 bytes. -/
def encodeStr (s : JSStr) : List Nat :=
  natDecimalBytes (stringByteCountUTF8 s) ++ [0x3a] ++ toUTF8Bytes s

/-- `BencodeBinaryString.encode`: byte length in decimal, `:`, raw bytes. -/
def encodeBytes (b : List Nat) : List Nat :=
  natDecimalBytes b.length ++ [0x3a] ++ b

/-- The key ordering used by `Object.keys(this.data).sort()`, lifted to
(key, encoded bytes) pairs. -/
def keyLe (p q : JSStr × List Nat) : Prop := cuLe p.1 q.1 = true

instance : DecidableRel keyLe := fun _ _ => inferInstanceAs (Decidable (_ = true))

/-- `BencodeDict.encode` sorts the keys and then emits each key/value pair.
Emitting in sorted key order commutes with encoding each pair, so here the
already-encoded pairs are sorted by key and concatenated. -/
def dictBody (ps : List (JSStr × List Nat)) : List Nat :=
  (List.insertionSort keyLe ps).flatMap Prod.snd

mutual

/-- The Bencode encoder (`BencodeObject.encode` and subclasses), as a pure
function from a value to its byte sequence. -/
def encode : BVal → List Nat
  | .int n => 0x69 :: intDecimalBytes n ++ [0x65]
  | .str s => encodeStr s
  | .bytes b => encodeBytes b
  | .list l => 0x6c :: encodeList l ++ [0x65]
  | .dict kvs => 0x64 :: dictBody (encodePairs kvs) ++ [0x65]

/-- `BencodeList.encode`: children in the given order. -/
def encodeList : List BVal → List Nat
  | [] => []
  | v :: rest => encode v ++ encodeList rest

/-- Each dictionary entry encoded as `<key-as-byte-string><value>`, still in
insertion order; `dictBody` applies the key sort. -/
def encodePairs : List (JSStr × BVal) → List (JSStr × List Nat)
  | [] => []
  | (k, v) :: rest => (k, encodeStr k ++ encode v) :: encodePairs rest

end

/-! Order-theoretic facts about the JavaScript string comparison. -/

theorem cuLt_asymm : ∀ {a b : JSStr}, cuLt a b = true → cuLt b a = true → False
  | [], [], h1, _ => by simp [cuLt] at h1
  | [], _ :: _, _, h2 => by simp [cuLt] at h2
  | _ :: _, [], h1, _ => by simp [cuLt] at h1
  | x :: xs, y :: ys, h1, h2 => by
    simp only [cuLt, Bool.or_eq_true, Bool.and_eq_true, decide_eq_true_eq] at h1 h2
    rcases h1 with h1 | ⟨he1, hr1⟩
    · rcases h2 with h2 | ⟨he2, _⟩ <;> omega
    · rcases h2 with h2 | ⟨_, hr2⟩
      · omega
      · exact cuLt_asymm hr1 hr2

theorem cuLt_trans :
    ∀ {a b c : JSStr}, cuLt a b = true → cuLt b c = true → cuLt a c = true
  | [], _ :: _, _ :: _, _, _ => rfl
  | [], [], _, h1, _ => by simp [cuLt] at h1
  | _ :: _, [], _, h1, _ => by simp [cuLt] at h1
  | _, _ :: _, [], _, h2 => by simp [cuLt] at h2
  | x :: xs, y :: ys, z :: zs, h1, h2 => by
    simp only [cuLt, Bool.or_eq_true, Bool.and_eq_true, decide_eq_true_eq] at h1 h2 ⊢
    rcases h1 with h1 | ⟨he1, hr1⟩
    · rcases h2 with h2 | ⟨he2, _⟩
      · exact Or.inl (by omega)
      · exact Or.inl (by omega)
    · rcases h2 with h2 | ⟨he2, hr2⟩
      · exact Or.inl (by omega)
      · exact Or.inr ⟨by omega, cuLt_trans hr1 hr2⟩

theorem cuLt_connex : ∀ a b : JSStr, a = b ∨ cuLt a b = true ∨ cuLt b a = true
  | [], [] => Or.inl rfl
  | [], _ :: _ => Or.inr (Or.inl rfl)
  | _ :: _, [] => Or.inr (Or.inr rfl)
  | x :: xs, y :: ys => by
    simp only [cuLt, Bool.or_eq_true, Bool.and_eq_true, decide_eq_true_eq]
    rcases Nat.lt_trichotomy x y with h | h | h
    · exact Or.inr (Or.inl (Or.inl h))
    · rcases cuLt_connex xs ys with h2 | h2 | h2
      · exact Or.inl (by rw [h, h2])
      · exact Or.inr (Or.inl (Or.inr ⟨h, h2⟩))
      · exact Or.inr (Or.inr (Or.inr ⟨h.symm, h2⟩))
    · exact Or.inr (Or.inr (Or.inl h))

theorem cuLe_antisymm {a b : JSStr} (h1 : cuLe a b = true) (h2 : cuLe b a = true) :
    a = b := by
  simp only [cuLe, Bool.not_eq_true'] at h1 h2
  rcases cuLt_connex a b with h | h | h
  · exact h
  · rw [h] at h2; cases h2
  · rw [h] at h1; cases h1

theorem cuLe_total (a b : JSStr) : cuLe a b = true ∨ cuLe b a = true := by
  simp only [cuLe, Bool.not_eq_true']
  by_cases h : cuLt b a = true
  · by_cases h' : cuLt a b = true
    · exact absurd (cuLt_asymm h h') id
    · exact Or.inr (by simpa using h')
  · exact Or.inl (by simpa using h)

theorem cuLe_trans {a b c : JSStr} (h1 : cuLe a b = true) (h2 : cuLe b c = true) :
    cuLe a c = true := by
  simp only [cuLe, Bool.not_eq_true'] at h1 h2 ⊢
  by_contra h
  have hca : cuLt c a = true := by simpa using h
  rcases cuLt_connex a b with he | hab | hba
  · subst he; rw [hca] at h2; cases h2
  · have := cuLt_trans hca hab; rw [this] at h2; cases h2
  · rw [hba] at h1; cases h1

instance : IsTotal (JSStr × List Nat) keyLe :=
  ⟨fun p q => cuLe_total p.1 q.1⟩

instance : IsTrans (JSStr × List Nat) keyLe :=
  ⟨fun _ _ _ h1 h2 => cuLe_trans h1 h2⟩

/-- Two key-sorted lists of (key, bytes) pairs that are permutations of each
other and have pairwise-distinct keys are equal. -/
theorem sorted_key_nodup_perm_eq :
    ∀ {l₁ l₂ : List (JSStr × List Nat)}, l₁.Perm l₂ →
      l₁.Sorted keyLe → l₂.Sorted keyLe → (l₁.map Prod.fst).Nodup → l₁ = l₂
  | [], l₂, hp, _, _, _ => hp.nil_eq
  | p :: l₁, l₂, hp, hs₁, hs₂, hn => by
    match l₂, hp with
    | [], hp => exact absurd hp.symm.nil_eq (by simp)
    | q :: l₂, hp =>
      have hpq : p = q := by
        have hpmem : p ∈ q :: l₂ := hp.subset (List.mem_cons_self p l₁)
        have hqmem : q ∈ p :: l₁ := hp.symm.subset (List.mem_cons_self q l₂)
        rcases List.mem_cons.1 hpmem with he | hpmem'
        · exact he
        rcases List.mem_cons.1 hqmem with he | hqmem'
        · exact he.symm
        have h1 : keyLe q p := (List.sorted_cons.1 hs₂).1 p hpmem'
        have h2 : keyLe p q := (List.sorted_cons.1 hs₁).1 q hqmem'
        have hkey : p.1 = q.1 := cuLe_antisymm h2 h1
        have : p.1 ∈ l₁.map Prod.fst := by
          rw [hkey]
          exact List.mem_map_of_mem Prod.fst hqmem'
        exact absurd this (List.nodup_cons.1 hn).1
      subst hpq
      have := sorted_key_nodup_perm_eq (hp.cons_inv)
        (List.sorted_cons.1 hs₁).2 (List.sorted_cons.1 hs₂).2 (List.nodup_cons.1 hn).2
      rw [this]

theorem encodePairs_eq_map (kvs : List (JSStr × BVal)) :
    encodePairs kvs = kvs.map fun p => (p.1, encodeStr p.1 ++ encode p.2) := by
  induction kvs with
  | nil => rfl
  | cons p rest ih => obtain ⟨k, v⟩ := p; simp [encodePairs, ih]

/-- Reference rendering of the spec's words for C1: `d`, then the key/value
pairs with keys ascending by lexicographic comparison of their UTF-8 bytes,
then `e`. -/
def utf8KeyLe (p q : JSStr × List Nat) : Prop :=
  cuLe (toUTF8Bytes p.1) (toUTF8Bytes q.1) = true

instance : DecidableRel utf8KeyLe := fun _ _ => inferInstanceAs (Decidable (_ = true))

/-- Modelled from the spec: the dictionary encoding the claim describes,
with keys ordered by their UTF-8 bytes instead of their UTF-16 code units. -/
def utf8SortedDictEncode (kvs : List (JSStr × BVal)) : List Nat :=
  0x64 :: (List.insertionSort utf8KeyLe (encodePairs kvs)).flatMap Prod.snd ++ [0x65]


/-- **C1 (amended).** `BencodeDict.encode` emits `d`, then each key-value
pair with keys in ascending lexicographic UTF-16 code-unit order (the
JavaScript string comparison used by `Array.prototype.sort`), then `e`;
hence two dictionaries differing only in key insertion order encode to
identical bytes, and `encode(dict{"b": "x", "a": "y"})` yields exactly the
bytes `d1:a1:y1:b1:xe`.  (The original claim's UTF-8 byte order differs
from the implemented code-unit order on supplementary-plane keys.) -/
theorem C1_dict_sorted_encode :
    (∀ kvs kvs' : List (JSStr × BVal), (kvs.map Prod.fst).Nodup → kvs.Perm kvs' →
      encode (.dict kvs) = encode (.dict kvs')) ∧
    (∀ kvs : List (JSStr × BVal), ∃ l : List (JSStr × List Nat),
      l.Perm (encodePairs kvs) ∧ l.Sorted keyLe ∧
      encode (.dict kvs) = 0x64 :: l.flatMap Prod.snd ++ [0x65]) ∧
    encode (.dict [(strLit "b", .str (strLit "x")), (strLit "a", .str (strLit "y"))]) =
      strLit "d1:a1:y1:b1:xe" := by
  refine ⟨fun kvs kvs' hnd hperm => ?_, fun kvs => ?_, by decide⟩
  · have hpermP : (encodePairs kvs).Perm (encodePairs kvs') := by
      rw [encodePairs_eq_map, encodePairs_eq_map]
      exact hperm.map _
    have hndP : ((encodePairs kvs).map Prod.fst).Nodup := by
      rw [encodePairs_eq_map, List.map_map]
      exact hnd
    have hnd₁ : ((List.insertionSort keyLe (encodePairs kvs)).map Prod.fst).Nodup :=
      (((List.perm_insertionSort keyLe (encodePairs kvs)).map Prod.fst).nodup_iff).2 hndP
    have heq : List.insertionSort keyLe (encodePairs kvs) =
        List.insertionSort keyLe (encodePairs kvs') :=
      sorted_key_nodup_perm_eq
        ((List.perm_insertionSort _ _).trans
          (hpermP.trans (List.perm_insertionSort _ _).symm))
        (List.sorted_insertionSort _ _) (List.sorted_insertionSort _ _) hnd₁
    simp [encode, dictBody, heq]
  · exact ⟨List.insertionSort keyLe (encodePairs kvs), List.perm_insertionSort _ _,
      List.sorted_insertionSort _ _, by simp [encode, dictBody]⟩

/-- Witness for C1: two concrete dictionaries differing only in insertion
order encode to the same bytes. -/
theorem C1_dict_sorted_encode_witness :
    encode (.dict [(strLit "b", .str (strLit "x")), (strLit "a", .str (strLit "y"))]) =
      encode (.dict [(strLit "a", .str (strLit "y")), (strLit "b", .str (strLit "x"))]) :=
  C1_dict_sorted_encode.1 _ _ (by decide) (List.Perm.swap _ _ _)

/-- **C1 counterexample.** For the dictionary with keys U+10000 (surrogate
pair `0xD800 0xDC00`) and U+FFFF, the encoder's output is not the UTF-8
byte-order rendering the claim demands: JavaScript sorts the surrogate pair
first (code units `0xD800 < 0xFFFF`), UTF-8 byte order sorts it last
(`0xF0… > 0xEF…`). -/
theorem C1_claim_counterexample :
    encode (.dict [([0xD800, 0xDC00], .int 0), ([0xFFFF], .int 1)]) ≠
      utf8SortedDictEncode [([0xD800, 0xDC00], .int 0), ([0xFFFF], .int 1)] := by
  decide


/-! ## Worker pool (`Sha1.ts` pool + `Sha1Worker.ts` worker object) -/

/-- The worker copies exactly 20 bytes out of the wasm heap at the result
pointer (`this.HEAPU8.subarray(resultPtr, resultPtr + 20)`), whatever the
abstracted kernel wrote there. -/
def heapBytes20 (d : List Nat) : List Nat := (d ++ List.replicate 20 0).take 20

/-- Return value of `Sha1WorkerObject.computeHashes`: the concatenated
digests and the transferred-back input buffers. -/
structure HashBatch where
  result : List Nat
  originalInputs : List (List Nat)

/-- `Sha1WorkerObject.computeHashes`: hashes each input independently, in
order, writing digest `i` at offset `20 · i` of a `20 · n`-byte result, and
returns the original input buffers for recycling. -/
def workerComputeHashes (sha1 : List Nat → List Nat) (inputs : List (List Nat)) : HashBatch :=
  { result := inputs.flatMap fun b => heapBytes20 (sha1 b)
    originalInputs := inputs }

/-- One call of the pool's `computeHashes`: `activeCreationId` is the value
of the pool's active id at the moment a free worker has been acquired (the
cancellation check happens right after the acquisition `await`). -/
def poolComputeHashes (sha1 : List Nat → List Nat) (data : List (List Nat))
    (creationId : Option Int) (activeCreationId : Int) : Option HashBatch :=
  match creationId with
  | none => some (workerComputeHashes sha1 data)
  | some id =>
    if id = activeCreationId then some (workerComputeHashes sha1 data) else none

theorem heapBytes20_length (d : List Nat) : (heapBytes20 d).length = 20 := by
  simp [heapBytes20]

theorem flatMap_const_length_slice {f : List Nat → List Nat}
    (hf : ∀ b, (f b).length = 20) :
    ∀ (l : List (List Nat)) (i : Nat), i < l.length →
      ((l.flatMap f).drop (20 * i)).take 20 = f l[i]!
  | a :: l, 0, _ => by
    simp only [List.flatMap_cons, Nat.mul_zero, List.drop_zero]
    rw [List.take_append_of_le_length (by rw [hf a]), ← hf a, List.take_length,
      List.getElem!_cons_zero]
  | a :: l, i + 1, h => by
    have : (f a ++ l.flatMap f).drop (20 * (i + 1)) = (l.flatMap f).drop (20 * i) := by
      have h20 : 20 * (i + 1) = (f a).length + 20 * i := by rw [hf a]; ring
      rw [h20, List.drop_append]
    simp only [List.flatMap_cons, this, List.getElem!_cons_succ]
    exact flatMap_const_length_slice hf l i (by simpa using h)

theorem flatMap_const_length {f : List Nat → List Nat} (hf : ∀ b, (f b).length = 20) :
    ∀ l : List (List Nat), (l.flatMap f).length = 20 * l.length
  | [] => rfl
  | a :: l => by
    simp only [List.flatMap_cons, List.length_append, hf a, List.length_cons,
      flatMap_const_length hf l]
    ring

/-- **C3.** The pool's `computeHashes` hashes each input independently and in
order — the `i`-th 20-byte slice of the result is the digest of the `i`-th
input — and hands back the original buffers; it returns `none` exactly when
a `creationId` was provided and differs from the pool's active id at the
moment the worker was acquired. -/
theorem C3_pool_computeHashes (sha1 : List Nat → List Nat) (data : List (List Nat))
    (creationId : Option Int) (activeId : Int) :
    (poolComputeHashes sha1 data creationId activeId = none ↔
      ∃ id, creationId = some id ∧ id ≠ activeId) ∧
    (∀ r, poolComputeHashes sha1 data creationId activeId = some r →
      r.originalInputs = data ∧ r.result.length = 20 * data.length ∧
      ∀ i, i < data.length →
        (r.result.drop (20 * i)).take 20 = heapBytes20 (sha1 data[i]!)) := by
  constructor
  · cases creationId with
    | none => simp [poolComputeHashes]
    | some id =>
      by_cases h : id = activeId <;> simp [poolComputeHashes, h]
  · intro r hr
    have hval : r = workerComputeHashes sha1 data := by
      cases creationId with
      | none => simpa [poolComputeHashes] using hr.symm
      | some id =>
        by_cases h : id = activeId
        · simpa [poolComputeHashes, h] using hr.symm
        · simp [poolComputeHashes, h] at hr
    subst hval
    refine ⟨rfl, flatMap_const_length (fun b => heapBytes20_length (sha1 b)) data, ?_⟩
    intro i hi
    exact flatMap_const_length_slice (fun b => heapBytes20_length (sha1 b)) data i hi

/-- Witness for C3: a cancelled call returns `none`; a live call on two
one-byte inputs returns the 40-byte digest table and the original buffers. -/
theorem C3_pool_computeHashes_witness :
    poolComputeHashes (fun _ => List.replicate 20 7) [[1], [2]] (some 3) 4 = none ∧
    ∀ r, poolComputeHashes (fun _ => List.replicate 20 7) [[1], [2]] (some 4) 4 = some r →
      r.originalInputs = [[1], [2]] ∧ r.result.length = 20 * 2 :=
  ⟨(C3_pool_computeHashes (fun _ => List.replicate 20 7) [[1], [2]] (some 3) 4).1.mpr
      ⟨3, rfl, by decide⟩,
    fun r hr =>
      ⟨((C3_pool_computeHashes (fun _ => List.replicate 20 7) [[1], [2]] (some 4) 4).2 r hr).1,
        ((C3_pool_computeHashes (fun _ => List.replicate 20 7) [[1], [2]] (some 4) 4).2 r hr).2.1⟩⟩

/-! ## Pool scheduling (`createWorkerPool` in `Sha1.ts`) -/

/-- Pool bookkeeping: `workers` is the free-worker array and `waiting` the
callers awaiting a worker in arrival order (`push` appends at the end). -/
structure PoolState where
  workers : List Nat
  waiting : List Nat

/-- A caller asking for a worker (`computeHashes`, acquisition): take the
last free worker (`workers.pop()`), else append the caller to the wait
array (`waitingResolvers.push(res)`).  Returns the worker assigned now. -/
def poolAcquire (s : PoolState) (caller : Nat) : PoolState × Option Nat :=
  match s.workers.getLast? with
  | some w => (⟨s.workers.dropLast, s.waiting⟩, some w)
  | none => (⟨s.workers, s.waiting ++ [caller]⟩, none)

/-- A worker being handed back after a job: `waitingResolvers.pop()` takes
the last element of the wait array; if there is none, the worker returns to
the free array (`workers.push(worker)`).  Returns the waiter resolved. -/
def poolRelease (s : PoolState) (w : Nat) : PoolState × Option Nat :=
  match s.waiting.getLast? with
  | some c => (⟨s.workers, s.waiting.dropLast⟩, some c)
  | none => (⟨s.workers ++ [w], s.waiting⟩, none)

/-- **C4 (amended).** The wait queue is a LIFO stack, not FIFO: a worker
that becomes free is handed to the waiter that arrived **last**; with no
waiters the worker rejoins the free array.  Arrival with no free worker
appends the caller at the end of the wait array. -/
theorem C4_lifo_wait_queue :
    (∀ (ws q : List Nat) (c w : Nat), poolRelease ⟨ws, q ++ [c]⟩ w = (⟨ws, q⟩, some c)) ∧
    (∀ (ws : List Nat) (w : Nat), poolRelease ⟨ws, []⟩ w = (⟨ws ++ [w], []⟩, none)) ∧
    (∀ (q : List Nat) (c : Nat), poolAcquire ⟨[], q⟩ c = (⟨[], q ++ [c]⟩, none)) := by
  refine ⟨fun ws q c w => ?_, fun ws w => rfl, fun q c => rfl⟩
  simp [poolRelease, List.getLast?_concat, List.dropLast_concat]

/-- **C4 counterexample.** Callers 1 then 2 arrive while no worker is free;
when a worker is handed back it goes to caller 2, not to the first-arrived
caller 1 as the FIFO claim states. -/
theorem C4_claim_counterexample :
    (poolRelease ((poolAcquire ((poolAcquire ⟨[], []⟩ 1).1) 2).1) 7).2 ≠ some 1 ∧
    (poolRelease ((poolAcquire ((poolAcquire ⟨[], []⟩ 1).1) 2).1) 7).2 = some 2 := by
  decide


/-! ## UI parameters and validation (`UIState.ts`, `TorrentObject.ts`, `Util.ts`) -/

/-- The `BlockSize` enum from `UIState.ts`. -/
inductive BlockSize where
  | auto | kb16 | kb32 | kb64 | kb128 | kb256 | kb512
  | mb1 | mb2 | mb4 | mb8 | mb16
deriving DecidableEq

/-- `TorrentUIParameters` from `UIState.ts`. -/
structure TorrentUIParameters where
  name : JSStr
  blockSize : BlockSize
  isPrivate : Bool
  setCreationDate : Bool
  trackers : JSStr
  webSeeds : JSStr
  comment : JSStr
  source : JSStr

/-- The code units matched by the JavaScript regex class `\s`. -/
def isJsSpace (c : Nat) : Bool :=
  c = 9 || c = 10 || c = 11 || c = 12 || c = 13 || c = 32 || c = 0xa0 || c = 0x1680 ||
    (0x2000 ≤ c && c ≤ 0x200a) || c = 0x2028 || c = 0x2029 || c = 0x202f || c = 0x205f ||
    c = 0x3000 || c = 0xfeff

/-- Split at each whitespace code unit, keeping (possibly empty) segments. -/
def splitAtSpaces : List Nat → List Nat → List JSStr
  | [], acc => [acc.reverse]
  | c :: rest, acc =>
    if isJsSpace c then acc.reverse :: splitAtSpaces rest []
    else splitAtSpaces rest (c :: acc)

/-- `getLines` from `Util.ts`: `str.split(/\s+/g)` filtered of empty tokens.
Splitting on runs of whitespace and dropping empty tokens equals splitting
at every whitespace character and dropping empty segments. -/
def getLines (s : JSStr) : List JSStr :=
  (splitAtSpaces s []).filter fun l => l.length ≠ 0

/-- The characters rejected in torrent names: `[<>:\"\\\/\|\?\*]`. -/
def isReservedNameChar (c : Nat) : Bool :=
  c = 60 || c = 62 || c = 58 || c = 34 || c = 92 || c = 47 || c = 124 || c = 63 || c = 42

/-- The WHATWG URL record, reduced to the only component the validator
reads.  `new URL(...)` itself is a browser built-in, abstracted as a
function `JSStr → Option URLRecord` (`none` models the thrown TypeError). -/
structure URLRecord where
  pathname : JSStr
deriving DecidableEq

/-- The regex test `/\/announce\/?$/.test(url.pathname)`: the pathname ends
with `/announce`, optionally followed by one final `/`. -/
def announceRegexTest (p : JSStr) : Bool :=
  (strLit "/announce").isSuffixOf p || (strLit "/announce/").isSuffixOf p

def invalidTrackerNotUrl (t : JSStr) : JSStr :=
  strLit "Invalid tracker: `" ++ t ++ strLit "` (not a valid URL)"

def invalidTrackerAnnounce (t : JSStr) : JSStr :=
  strLit "Invalid tracker: `" ++ t ++ strLit "` (URL must end with `announce` or `announce/`)"

def invalidWebSeed (t : JSStr) : JSStr :=
  strLit "Invalid web seed: `" ++ t ++ strLit "` (not a valid URL)"

/-- The tracker-loop body of `validateTorrentInput`: the error produced for
one tracker token, if any. -/
def trackerError (parseURL : JSStr → Option URLRecord) (t : JSStr) : Option JSStr :=
  match parseURL t with
  | none => some (invalidTrackerNotUrl t)
  | some u => if announceRegexTest u.pathname then none else some (invalidTrackerAnnounce t)

/-- The web-seed-loop body of `validateTorrentInput`. -/
def webSeedError (parseURL : JSStr → Option URLRecord) (t : JSStr) : Option JSStr :=
  match parseURL t with
  | none => some (invalidWebSeed t)
  | some _ => none

/-- `validateTorrentInput` from `TorrentObject.ts`: name checks in order,
then each tracker token, then each web seed; first failure wins. -/
def validateTorrentInput (parseURL : JSStr → Option URLRecord)
    (p : TorrentUIParameters) : Except JSStr Unit :=
  if p.name.length = 0 then .error (strLit "Torrent name cannot be empty")
  else if 255 < p.name.length then
    .error (strLit "Torrent name cannot be longer than 255 characters")
  else if p.name.any isReservedNameChar then
    .error (strLit "Torrent name cannot contain any of the following characters: < > : \\ / | ? *")
  else
    match (getLines p.trackers).findSome? (trackerError parseURL) with
    | some e => .error e
    | none =>
      match (getLines p.webSeeds).findSome? (webSeedError parseURL) with
      | some e => .error e
      | none => .ok ()

theorem findSome?_eq_none_iff {α β : Type} {f : α → Option β} :
    ∀ {l : List α}, l.findSome? f = none ↔ ∀ x ∈ l, f x = none
  | [] => by simp
  | a :: l => by
    rw [List.findSome?_cons]
    cases h : f a with
    | none => simp [h, findSome?_eq_none_iff (l := l)]
    | some b => simp [h]



/-- **C7.** `validateTorrentInput` returns the first applicable failure in a
fixed order: empty name, then name over 255 UTF-16 code units, then a
reserved character; these name checks fire regardless of the tracker and
web-seed fields, and the result is `ok` exactly when every check passes. -/
theorem C7_validate_first_failure (parseURL : JSStr → Option URLRecord)
    (p : TorrentUIParameters) :
    (p.name.length = 0 →
      validateTorrentInput parseURL p = .error (strLit "Torrent name cannot be empty")) ∧
    (p.name.length ≠ 0 → 255 < p.name.length →
      validateTorrentInput parseURL p =
        .error (strLit "Torrent name cannot be longer than 255 characters")) ∧
    (p.name.length ≠ 0 → p.name.length ≤ 255 → p.name.any isReservedNameChar = true →
      validateTorrentInput parseURL p =
        .error (strLit
          "Torrent name cannot contain any of the following characters: < > : \\ / | ? *")) ∧
    (validateTorrentInput parseURL p = .ok () ↔
      p.name.length ≠ 0 ∧ p.name.length ≤ 255 ∧ p.name.any isReservedNameChar = false ∧
      (∀ t ∈ getLines p.trackers, trackerError parseURL t = none) ∧
      (∀ w ∈ getLines p.webSeeds, webSeedError parseURL w = none)) := by
  refine ⟨fun h0 => by simp [validateTorrentInput, h0], fun h0 h255 => ?_, fun h0 h255 hres => ?_, ?_⟩
  · simp only [validateTorrentInput]
    rw [if_neg h0, if_pos h255]
  · simp only [validateTorrentInput]
    rw [if_neg h0, if_neg (by omega), if_pos hres]
  · constructor
    · intro hok
      simp only [validateTorrentInput] at hok
      split at hok
      · cases hok
      · split at hok
        · cases hok
        · split at hok
          · cases hok
          · rename_i h0 h255 hres
            refine ⟨h0, by omega, by simpa using hres, ?_⟩
            rcases htr : (getLines p.trackers).findSome? (trackerError parseURL) with _ | e
            · rcases hws : (getLines p.webSeeds).findSome? (webSeedError parseURL) with _ | e
              · exact ⟨findSome?_eq_none_iff.1 htr, findSome?_eq_none_iff.1 hws⟩
              · rw [htr, hws] at hok; cases hok
            · rw [htr] at hok; cases hok
    · rintro ⟨h0, h255, hres, htr, hws⟩
      simp only [validateTorrentInput]
      rw [if_neg h0, if_neg (by omega), if_neg (by simp [hres]),
        findSome?_eq_none_iff.2 htr, findSome?_eq_none_iff.2 hws]

/-- Witness for C7: the empty name is rejected with the exact message, and a
fully valid parameter record passes. -/
theorem C7_validate_first_failure_witness :
    validateTorrentInput (fun _ => none)
        ⟨[], .auto, false, false, [], [], [], []⟩ =
      .error (strLit "Torrent name cannot be empty") ∧
    validateTorrentInput (fun _ => none)
        ⟨strLit "a", .auto, false, false, [], [], [], []⟩ = .ok () :=
  ⟨(C7_validate_first_failure (fun _ => none) _).1 rfl,
    (C7_validate_first_failure (fun _ => none)
        ⟨strLit "a", .auto, false, false, [], [], [], []⟩).2.2.2.mpr
      (by refine ⟨by decide, by decide, by decide, ?_, ?_⟩ <;> decide)⟩

/-- **C8 (amended).** A tracker token passes validation iff it parses as an
absolute URL whose pathname ends with `/announce` or `/announce/` (the
regex `/\/announce\/?$/` requires the slash before `announce`); a record
that validates `ok` has every tracker token passing. -/
theorem C8_tracker_announce_suffix (parseURL : JSStr → Option URLRecord) :
    (∀ t : JSStr, trackerError parseURL t = none ↔
      ∃ u, parseURL t = some u ∧
        ((strLit "/announce").isSuffixOf u.pathname = true ∨
          (strLit "/announce/").isSuffixOf u.pathname = true)) ∧
    (∀ p : TorrentUIParameters, validateTorrentInput parseURL p = .ok () →
      ∀ t ∈ getLines p.trackers, trackerError parseURL t = none) := by
  constructor
  · intro t
    cases hu : parseURL t with
    | none => simp [trackerError, hu]
    | some u =>
      by_cases h : announceRegexTest u.pathname = true
      · simp only [trackerError, hu, if_pos h, true_iff]
        exact ⟨u, rfl, by simpa [announceRegexTest] using h⟩
      · simp only [trackerError, hu, if_neg h]
        constructor
        · intro hc; cases hc
        · rintro ⟨u', hu', hsuf⟩
          obtain rfl := Option.some.inj hu'
          exact absurd (by simpa [announceRegexTest] using hsuf) h
  · intro p hok t ht
    have hok' := hok
    simp only [validateTorrentInput] at hok'
    split at hok'
    · cases hok'
    · split at hok'
      · cases hok'
      · split at hok'
        · cases hok'
        · rcases htr : (getLines p.trackers).findSome? (trackerError parseURL) with _ | e
          · exact findSome?_eq_none_iff.1 htr t ht
          · rw [htr] at hok'; cases hok'

/-- Witness for C8: under a parser that accepts `http://x/announce` with
pathname `/announce`, that token passes and validation succeeds. -/
theorem C8_tracker_announce_suffix_witness :
    trackerError
        (fun s => if s = strLit "http://x/announce" then some ⟨strLit "/announce"⟩ else none)
        (strLit "http://x/announce") = none :=
  (C8_tracker_announce_suffix _).1 (strLit "http://x/announce") |>.mpr
    ⟨⟨strLit "/announce"⟩, by decide, Or.inl (by decide)⟩

/-- **C8 counterexample.** Under a URL parser that (like the browser's)
maps `http://h/xannounce` to pathname `/xannounce`, the token's path ends
with `announce`, yet validation rejects it: the regex `/\/announce\/?$/`
also requires the `/` before `announce`. -/
theorem C8_claim_counterexample :
    (strLit "announce").isSuffixOf
        (URLRecord.pathname ⟨strLit "/xannounce"⟩) = true ∧
    trackerError
        (fun s => if s = strLit "http://h/xannounce" then some ⟨strLit "/xannounce"⟩ else none)
        (strLit "http://h/xannounce") =
      some (invalidTrackerAnnounce (strLit "http://h/xannounce")) ∧
    validateTorrentInput
        (fun s => if s = strLit "http://h/xannounce" then some ⟨strLit "/xannounce"⟩ else none)
        ⟨strLit "a", .auto, false, false, strLit "http://h/xannounce", [], [], []⟩ =
      .error (invalidTrackerAnnounce (strLit "http://h/xannounce")) := by
  refine ⟨by decide, by decide, by rfl⟩

/-- **C10.** The validation outcome depends only on `name`, `trackers` and
`webSeeds`: records agreeing on those three fields validate identically,
whatever their `blockSize`, `isPrivate`, `setCreationDate`, `comment` and
`source`. -/
theorem C10_validate_ignores_other_fields (parseURL : JSStr → Option URLRecord)
    (p₁ p₂ : TorrentUIParameters) (hn : p₁.name = p₂.name)
    (ht : p₁.trackers = p₂.trackers) (hw : p₁.webSeeds = p₂.webSeeds) :
    validateTorrentInput parseURL p₁ = validateTorrentInput parseURL p₂ := by
  obtain ⟨n₁, b₁, i₁, d₁, t₁, w₁, c₁, s₁⟩ := p₁
  obtain ⟨n₂, b₂, i₂, d₂, t₂, w₂, c₂, s₂⟩ := p₂
  cases hn; cases ht; cases hw
  rfl

/-- Witness for C10: two records differing in every ignored field validate
to the same result. -/
theorem C10_validate_ignores_other_fields_witness :
    validateTorrentInput (fun _ => none)
        ⟨strLit "a", .auto, false, false, [], [], strLit "hello", []⟩ =
      validateTorrentInput (fun _ => none)
        ⟨strLit "a", .mb16, true, true, [], [], [], strLit "src"⟩ :=
  C10_validate_ignores_other_fields (fun _ => none) _ _ rfl rfl rfl



/-! ## Piece (block) size (`getAutoBlockSize` / `getBlockSize`) -/

/-- `KB` from `Util.ts`. -/
def KB : Nat := 1024

/-- `MB` from `Util.ts`. -/
def MB : Nat := KB * 1024

/-- The clamped factor `clamp(Math.round(Math.log2(totalSize / 1200)), 14, 24)`
of `getAutoBlockSize`, under exact real arithmetic.  For a non-negative real
`r`, `round(log2 r) ≥ k  ↔  log2 r ≥ k − 1/2  ↔  r² ≥ 2^(2k−1)`; with
`r = totalSize / 1200` (so `r² = totalSize² / 1440000`) this becomes
`1440000 · 2^(2k−1) ≤ totalSize²`.  Clamping an integer (or `-∞`, the
`totalSize = 0` case) `v` into `[14, 24]` gives `14 + #{k ∈ [15..24] | v ≥ k}`,
which is the count below.  `Math.round` rounds half-integers up, matching the
`≥` threshold; `log2` of a rational is never exactly a half-integer. -/
def autoFactor (totalSize : Nat) : Nat :=
  14 + ((List.range 10).filter fun i =>
    1440000 * 2 ^ (2 * (15 + i) - 1) ≤ totalSize * totalSize).length

/-- `getAutoBlockSize`: `1 << factor` for the clamped factor. -/
def getAutoBlockSize (totalSize : Nat) : Nat := 2 ^ autoFactor totalSize

/-- `getBlockSize` from `TorrentObject.ts`: the explicit sizes, or the auto
rule. -/
def getBlockSize : BlockSize → Nat → Nat
  | .auto, totalSize => getAutoBlockSize totalSize
  | .kb16, _ => 16 * KB
  | .kb32, _ => 32 * KB
  | .kb64, _ => 64 * KB
  | .kb128, _ => 128 * KB
  | .kb256, _ => 256 * KB
  | .kb512, _ => 512 * KB
  | .mb1, _ => 1 * MB
  | .mb2, _ => 2 * MB
  | .mb4, _ => 4 * MB
  | .mb8, _ => 8 * MB
  | .mb16, _ => 16 * MB

/-- **C5.** `getBlockSize` always returns a power of two in `[2^14, 2^24]`;
the automatic rule yields `2^clamp(round(log2(total_size/1200)), 14, 24)`
(realised by `autoFactor`), in particular `16384` for `total_size =
1,200,000`, and `16384` for every `total_size ≤ 19200`. -/
theorem C5_block_size_range :
    (∀ (b : BlockSize) (totalSize : Nat),
      ∃ k, 14 ≤ k ∧ k ≤ 24 ∧ getBlockSize b totalSize = 2 ^ k) ∧
    getBlockSize .auto 1200000 = 16384 ∧
    (∀ totalSize : Nat, totalSize ≤ 19200 → getBlockSize .auto totalSize = 16384) := by
  refine ⟨fun b t => ?_, by decide, fun t ht => ?_⟩
  · cases b with
    | auto =>
      refine ⟨autoFactor t, by simp [autoFactor], ?_, rfl⟩
      have h := List.length_filter_le
        (fun i => decide (1440000 * 2 ^ (2 * (15 + i) - 1) ≤ t * t)) (List.range 10)
      simp only [List.length_range] at h
      simp only [autoFactor]
      omega
    | kb16 => exact ⟨14, by omega, by omega, rfl⟩
    | kb32 => exact ⟨15, by omega, by omega, rfl⟩
    | kb64 => exact ⟨16, by omega, by omega, rfl⟩
    | kb128 => exact ⟨17, by omega, by omega, rfl⟩
    | kb256 => exact ⟨18, by omega, by omega, rfl⟩
    | kb512 => exact ⟨19, by omega, by omega, rfl⟩
    | mb1 => exact ⟨20, by omega, by omega, rfl⟩
    | mb2 => exact ⟨21, by omega, by omega, rfl⟩
    | mb4 => exact ⟨22, by omega, by omega, rfl⟩
    | mb8 => exact ⟨23, by omega, by omega, rfl⟩
    | mb16 => exact ⟨24, by omega, by omega, rfl⟩
  · have hsq : t * t ≤ 368640000 := Nat.mul_le_mul ht ht
    have hfil : ((List.range 10).filter fun i =>
        1440000 * 2 ^ (2 * (15 + i) - 1) ≤ t * t) = [] := by
      rw [List.filter_eq_nil_iff]
      intro i hi
      simp only [decide_eq_true_eq, not_le]
      have h2 : (2 : Nat) ^ 29 ≤ 2 ^ (2 * (15 + i) - 1) :=
        Nat.pow_le_pow_right (by omega) (by omega)
      calc t * t ≤ 368640000 := hsq
        _ < 1440000 * 2 ^ 29 := by norm_num
        _ ≤ 1440000 * 2 ^ (2 * (15 + i) - 1) := Nat.mul_le_mul_left _ h2
    show getAutoBlockSize t = 16384
    rw [getAutoBlockSize, autoFactor, hfil]
    rfl

/-- Witness for C5: the boundary input 19200 still gets 16 KiB pieces. -/
theorem C5_block_size_range_witness : getBlockSize .auto 19200 = 16384 :=
  C5_block_size_range.2.2 19200 (by omega)



/-! ## Assembler (`assembleTorrentObject` in `TorrentObject.ts`) -/

/-- One entry of `SelectedFileOrFolderInfo.fileList` (`FileWithPath`):
the path segments (file name included) and the file's size. -/
structure FileEntry where
  path : List JSStr
  size : Nat
deriving DecidableEq

/-- `SelectedFileOrFolderInfo.input`, restricted to the two components the
assembler reads: the input kind and, for a bare file, its size. -/
inductive SelectedInput where
  | file (size : Nat)
  | folder
deriving DecidableEq

/-- `SelectedFileOrFolderInfo` from `FileInput.ts`. -/
structure SelectedFileOrFolderInfo where
  name : JSStr
  size : Nat
  input : SelectedInput
  fileList : List FileEntry

/-- `TorrentFileInfo`: one `info.files` entry `{length, path}`. -/
structure TorrentFileInfo where
  length : Nat
  path : List JSStr
deriving DecidableEq

/-- The `info` dictionary under construction (`TorrentInfo`); `Option`
fields model keys that may be absent.  `torrentPrivate` stands for the
`private` key (a Lean keyword). -/
structure TorrentInfo where
  name : JSStr
  torrentPrivate : Option Nat
  pieces : List Nat
  pieceLength : Nat
  files : Option (List TorrentFileInfo)
  length : Option Nat
  source : Option JSStr
deriving DecidableEq

/-- The outer dictionary (`TorrentObject`); key names with spaces or dashes
are camel-cased. -/
structure TorrentObject where
  info : TorrentInfo
  announce : Option JSStr
  announceList : Option (List (List JSStr))
  urlList : Option (List JSStr)
  creationDate : Option Nat
  createdBy : JSStr
  comment : Option JSStr

/-- `assembleTorrentObject`: validates, then builds the outer dictionary.
`nowMs` stands for `Date.now()`; `(Date.now() / 1000) | 0` is `nowMs / 1000`
in natural-number division.  `announce` is set to the first tracker exactly
when the tracker list is non-empty, which `List.head?` captures.  The
`pieces` field is left empty (`new Uint8Array()`); the caller fills it in
after hashing. -/
def assembleTorrentObject (parseURL : JSStr → Option URLRecord)
    (p : TorrentUIParameters) (selected : Option SelectedFileOrFolderInfo)
    (blockSize : Nat) (nowMs : Nat) : Except JSStr TorrentObject :=
  match validateTorrentInput parseURL p with
  | .error e => .error e
  | .ok () =>
    let okTrackersList := getLines p.trackers
    let webSeeds := getLines p.webSeeds
    .ok
      { info :=
          { name := p.name
            torrentPrivate := if p.isPrivate then some 1 else none
            pieces := []
            pieceLength := blockSize
            files :=
              match selected with
              | some s =>
                match s.input with
                | .folder => some (s.fileList.map fun f => ⟨f.size, f.path⟩)
                | .file _ => none
              | none => none
            length :=
              match selected with
              | some s =>
                match s.input with
                | .file sz => some sz
                | .folder => none
              | none => none
            source := if p.source.length ≠ 0 then some p.source else none }
        announce := okTrackersList.head?
        announceList :=
          if okTrackersList.length ≠ 0 then some (okTrackersList.map fun t => [t]) else none
        urlList := if webSeeds.length ≠ 0 then some webSeeds else none
        creationDate := if p.setCreationDate then some (nowMs / 1000) else none
        createdBy := strLit "kimbatt.github.io/torrent-creator"
        comment := if p.comment.length ≠ 0 then some p.comment else none }

/-- **C6.** On a validated input with a selected file or folder, single-file
mode sets `info.length` to the file's size and omits `info.files`; folder
mode sets `info.files` to the `{length, path}` list in the given file order
and omits `info.length`; exactly one of the two keys is present. -/
theorem C6_assemble_modes (parseURL : JSStr → Option URLRecord)
    (p : TorrentUIParameters) (s : SelectedFileOrFolderInfo)
    (blockSize nowMs : Nat) (tob : TorrentObject)
    (hok : assembleTorrentObject parseURL p (some s) blockSize nowMs = .ok tob) :
    (∀ sz, s.input = .file sz → tob.info.length = some sz ∧ tob.info.files = none) ∧
    (s.input = .folder →
      tob.info.files = some (s.fileList.map fun f => ⟨f.size, f.path⟩) ∧
        tob.info.length = none) ∧
    ((tob.info.length.isSome ∧ tob.info.files = none) ∨
      (tob.info.files.isSome ∧ tob.info.length = none)) := by
  simp only [assembleTorrentObject] at hok
  split at hok
  · cases hok
  · obtain rfl := (Except.ok.inj hok).symm
    cases hin : s.input with
    | file sz =>
      refine ⟨?_, ?_, ?_⟩
      · intro sz' hsz'
        obtain rfl := SelectedInput.file.inj hsz'
        exact ⟨rfl, rfl⟩
      · intro hf
        cases hf
      · exact Or.inl ⟨rfl, rfl⟩
    | folder =>
      refine ⟨?_, ?_, ?_⟩
      · intro sz' hsz'
        cases hsz'
      · intro hf
        exact ⟨rfl, rfl⟩
      · exact Or.inr ⟨rfl, rfl⟩

/-- Witness for C6: a validated single-file input of size 5 produces
`info.length = 5` and no `info.files`. -/
theorem C6_assemble_modes_witness :
    ∃ tob, assembleTorrentObject (fun _ => none)
        ⟨strLit "a", .auto, false, false, [], [], [], []⟩
        (some ⟨strLit "a", 5, .file 5, [⟨[strLit "a"], 5⟩]⟩) 16384 0 = .ok tob ∧
      tob.info.length = some 5 ∧ tob.info.files = none := by
  refine ⟨_, rfl, ?_⟩
  exact (C6_assemble_modes (fun _ => none)
      ⟨strLit "a", .auto, false, false, [], [], [], []⟩
      ⟨strLit "a", 5, .file 5, [⟨[strLit "a"], 5⟩]⟩ 16384 0 _ rfl).1 5 rfl



/-! ## Streaming piece-hashing pipeline (`calculateHashes` in
`TorrentObject.ts`).

The run is modelled without cancellation (`creationId` always equal to
`getCurrentCreationId()`), which is the regime claims C2 and C9 describe.
Hash jobs write to disjoint, pre-reserved piece ranges, so performing each
job synchronously at dispatch preserves the observable result.  A failing
file is modelled as erroring before any of its chunks is accumulated; the
real code may fail at any read boundary, which affects neither the piece
table length on success nor the error message. -/

/-- A pipeline input file: path segments, contents (`file.size` is the
contents length), and whether reading it fails. -/
structure JSFile where
  path : List JSStr
  contents : List Nat
  readError : Bool

/-- The `getError()` message of `calculateHashes`: a template literal with a
literal newline after the path and no trailing period. -/
def readErrorMessage (filePath : JSStr) : JSStr :=
  strLit "Error reading file: `" ++ filePath ++
    strLit "`\nThe file might be inaccessible, or might have been modified, moved, or deleted"

/-- Pipeline failures: the `Result.error` string, or the `RangeError` that
`Uint8Array.prototype.set` throws when a write does not fit. -/
inductive HashError where
  | ioError (msg : JSStr)
  | rangeError
deriving DecidableEq

/-- `const readBufferSize = 16 * MB`. -/
def readBufferSize : Nat := 16 * MB

/-- `Uint8Array.prototype.set(src, offset)`: in-place copy, `none` models
the thrown `RangeError` when the source does not fit. -/
def uint8ArraySet (target src : List Nat) (offset : Nat) : Option (List Nat) :=
  if offset + src.length ≤ target.length then
    some (target.take offset ++ src ++ target.drop (offset + src.length))
  else none

/-- Pipeline state: the pending bytes of the 16 MiB read accumulator
(`readAccumulatorBuffer[0 .. readBufferIndex)`), the next piece index, and
the piece table. -/
structure HashState where
  readBuffer : List Nat
  pieceIndex : Nat
  pieces : List Nat

/-- Successive `n`-byte chunks of a list, the last possibly short; explicit
fuel (`l.length` suffices for `n > 0`) keeps it kernel-computable.  This is
how both read loops deliver chunks (`≤ 16 MiB` each) and how
`dispatchSha1Worker` slices its input into `ceil(len / blockSize)` pieces. -/
def chunksOfAux : Nat → Nat → List Nat → List (List Nat)
  | 0, _, _ => []
  | fuel + 1, n, l =>
    if l.length = 0 then [] else l.take n :: chunksOfAux fuel n (l.drop n)

def chunksOf (n : Nat) (l : List Nat) : List (List Nat) := chunksOfAux l.length n l

/-- `dispatchSha1Worker`: reserve `ceil(len / blockSize)` piece indices,
slice the input (the pooled buffers receive byte-identical copies), hash the
slices, and write the digests at byte offset `20 · startPieceIndex`. -/
def dispatchSha1Worker (sha1 : List Nat → List Nat) (blockSize : Nat)
    (st : HashState) (inputBytes : List Nat) : Except HashError HashState :=
  match uint8ArraySet st.pieces
      (workerComputeHashes sha1 (chunksOf blockSize inputBytes)).result
      (st.pieceIndex * 20) with
  | some pieces =>
    .ok ⟨st.readBuffer, st.pieceIndex + (chunksOf blockSize inputBytes).length, pieces⟩
  | none => .error .rangeError

/-- `onFileChunkRead`: if the chunk fills the 16 MiB accumulator, dispatch
the full accumulator and keep the overflow; otherwise just accumulate. -/
def onFileChunkRead (sha1 : List Nat → List Nat) (blockSize : Nat)
    (st : HashState) (chunk : List Nat) : Except HashError HashState :=
  if readBufferSize ≤ st.readBuffer.length + chunk.length then
    match dispatchSha1Worker sha1 blockSize ⟨st.readBuffer, st.pieceIndex, st.pieces⟩
        (st.readBuffer ++ chunk.take (readBufferSize - st.readBuffer.length)) with
    | .ok st' =>
      .ok ⟨chunk.drop (readBufferSize - st.readBuffer.length), st'.pieceIndex, st'.pieces⟩
    | .error e => .error e
  else
    .ok ⟨st.readBuffer ++ chunk, st.pieceIndex, st.pieces⟩

/-- The per-file loop body: size-0 files are skipped before any read; a
failing read returns the fixed `IoError` message with the `/`-joined path;
otherwise every chunk feeds the accumulator. -/
def processFile (sha1 : List Nat → List Nat) (blockSize : Nat)
    (st : HashState) (f : JSFile) : Except HashError HashState :=
  if f.contents.length = 0 then .ok st
  else if f.readError then
    .error (.ioError (readErrorMessage (List.intercalate (strLit "/") f.path)))
  else
    (chunksOf readBufferSize f.contents).foldlM (onFileChunkRead sha1 blockSize) st

/-- The pipeline's initial state: an empty accumulator, piece index 0, and
the preallocated `ceil(totalSize / blockSize) × 20`-byte piece table. -/
def initHashState (totalSize blockSize : Nat) : HashState :=
  ⟨[], 0, List.replicate (((totalSize + blockSize - 1) / blockSize) * 20) 0⟩

/-- `calculateHashes`: preallocate the piece table, stream every file
through the accumulator, dispatch the final partial accumulator, and return
the piece table. -/
def calculateHashes (sha1 : List Nat → List Nat) (inputFiles : List JSFile)
    (totalSize blockSize : Nat) : Except HashError (List Nat) := do
  let st ← inputFiles.foldlM (processFile sha1 blockSize) (initHashState totalSize blockSize)
  let st ←
    if st.readBuffer.length ≠ 0 then dispatchSha1Worker sha1 blockSize st st.readBuffer
    else pure st
  pure st.pieces

theorem uint8ArraySet_length {t s out : List Nat} {off : Nat}
    (h : uint8ArraySet t s off = some out) : out.length = t.length := by
  unfold uint8ArraySet at h
  split at h
  · obtain rfl := Option.some.inj h
    rename_i hle
    simp only [List.length_append, List.length_take, List.length_drop]
    omega
  · cases h

theorem dispatchSha1Worker_length {sha1 : List Nat → List Nat} {blockSize : Nat}
    {st st' : HashState} {input : List Nat}
    (h : dispatchSha1Worker sha1 blockSize st input = .ok st') :
    st'.pieces.length = st.pieces.length := by
  unfold dispatchSha1Worker at h
  split at h
  · rename_i pieces hset
    obtain rfl := (Except.ok.inj h).symm
    exact uint8ArraySet_length hset
  · cases h

theorem onFileChunkRead_length {sha1 : List Nat → List Nat} {blockSize : Nat}
    {st st' : HashState} {chunk : List Nat}
    (h : onFileChunkRead sha1 blockSize st chunk = .ok st') :
    st'.pieces.length = st.pieces.length := by
  unfold onFileChunkRead at h
  split at h
  · split at h
    · rename_i st₁ hd
      rw [← Except.ok.inj h]
      show st₁.pieces.length = st.pieces.length
      exact dispatchSha1Worker_length hd
    · cases h
  · rw [← Except.ok.inj h]

/-- Invariant preservation along an `Except`-valued fold. -/
theorem foldlM_except_preserves {α σ : Type} (P : σ → Prop)
    (f : σ → α → Except HashError σ)
    (hf : ∀ s a s', f s a = .ok s' → P s → P s') :
    ∀ (l : List α) (s s' : σ), l.foldlM f s = .ok s' → P s → P s'
  | [], s, s', h, hp => by
    simp only [List.foldlM_nil] at h
    exact (Except.ok.inj h) ▸ hp
  | a :: l, s, s', h, hp => by
    rw [List.foldlM_cons] at h
    cases hfa : f s a with
    | error e => rw [hfa] at h; cases h
    | ok s₁ =>
      rw [hfa] at h
      exact foldlM_except_preserves P f hf l s₁ s' h (hf s a s₁ hfa hp)

theorem processFile_length {sha1 : List Nat → List Nat} {blockSize : Nat}
    {st st' : HashState} {f : JSFile}
    (h : processFile sha1 blockSize st f = .ok st') :
    st'.pieces.length = st.pieces.length := by
  unfold processFile at h
  split at h
  · exact (Except.ok.inj h) ▸ rfl
  · split at h
    · cases h
    · exact foldlM_except_preserves (fun s => s.pieces.length = st.pieces.length)
        (onFileChunkRead sha1 blockSize)
        (fun s c s₁ hs hps => (onFileChunkRead_length hs).trans hps)
        _ st st' h rfl

theorem processFile_empty {sha1 : List Nat → List Nat} {blockSize : Nat}
    {f : JSFile} (hf : f.contents = []) (st : HashState) :
    processFile sha1 blockSize st f = .ok st := by
  unfold processFile
  rw [hf]
  rfl

/-- **C2.** The pipeline allocates a `ceil(totalSize / blockSize) × 20`-byte
piece table and, whenever it succeeds, returns exactly that many bytes
(every digest write leaves the table length unchanged); a size-0 file is
skipped entirely, so inserting one anywhere leaves the result — and hence
the piece table — unchanged. -/
theorem C2_piece_table_length :
    (∀ (sha1 : List Nat → List Nat) (files : List JSFile) (totalSize blockSize : Nat)
      (t : List Nat), 0 < blockSize →
      calculateHashes sha1 files totalSize blockSize = .ok t →
      t.length = ((totalSize + blockSize - 1) / blockSize) * 20) ∧
    (∀ (sha1 : List Nat → List Nat) (xs ys : List JSFile) (f₀ : JSFile)
      (totalSize blockSize : Nat), f₀.contents = [] →
      calculateHashes sha1 (xs ++ f₀ :: ys) totalSize blockSize =
        calculateHashes sha1 (xs ++ ys) totalSize blockSize) := by
  constructor
  · intro sha1 files totalSize blockSize t _ hok
    unfold calculateHashes at hok
    cases hfold : files.foldlM (processFile sha1 blockSize)
        (initHashState totalSize blockSize) with
    | error e => rw [hfold] at hok; cases hok
    | ok st =>
      rw [hfold] at hok
      have hst : st.pieces.length = ((totalSize + blockSize - 1) / blockSize) * 20 := by
        have := foldlM_except_preserves
          (fun s : HashState =>
            s.pieces.length = ((totalSize + blockSize - 1) / blockSize) * 20)
          (processFile sha1 blockSize)
          (fun s a s₁ hs hps => (processFile_length hs).trans hps)
          files _ st hfold (by simp [initHashState])
        exact this
      simp only [bind, Except.bind] at hok
      split at hok
      · cases hd : dispatchSha1Worker sha1 blockSize st st.readBuffer with
        | error e => rw [hd] at hok; cases hok
        | ok st₁ =>
          rw [hd] at hok
          obtain rfl := (Except.ok.inj hok).symm
          exact (dispatchSha1Worker_length hd).trans hst
      · obtain rfl := (Except.ok.inj hok).symm
        exact hst
  · intro sha1 xs ys f₀ totalSize blockSize hf
    unfold calculateHashes
    have hsplit : ∀ s : HashState,
        (f₀ :: ys).foldlM (processFile sha1 blockSize) s =
          ys.foldlM (processFile sha1 blockSize) s := by
      intro s
      rw [List.foldlM_cons, processFile_empty hf]
      rfl
    rw [List.foldlM_append, List.foldlM_append]
    cases hx : xs.foldlM (processFile sha1 blockSize) (initHashState totalSize blockSize) with
    | error e => rfl
    | ok s => simp only [bind, Except.bind, hsplit]

/-- Witness for C2: a 3-byte file with 2-byte pieces succeeds with a
40-byte piece table, and appending a size-0 (even unreadable) file does not
change the run's result. -/
theorem C2_piece_table_length_witness :
    (∃ t, calculateHashes (fun _ => List.replicate 20 0)
        [⟨[strLit "a"], [1, 2, 3], false⟩] 3 2 = .ok t ∧ t.length = 40) ∧
    calculateHashes (fun _ => List.replicate 20 0)
        [⟨[strLit "a"], [1, 2, 3], false⟩, ⟨[strLit "z"], [], true⟩] 3 2 =
      calculateHashes (fun _ => List.replicate 20 0)
        [⟨[strLit "a"], [1, 2, 3], false⟩] 3 2 := by
  constructor
  · refine ⟨_, rfl, ?_⟩
    exact C2_piece_table_length.1 (fun _ => List.replicate 20 0)
      [⟨[strLit "a"], [1, 2, 3], false⟩] 3 2 _ (by omega) rfl
  · exact C2_piece_table_length.2 (fun _ => List.replicate 20 0)
      [⟨[strLit "a"], [1, 2, 3], false⟩] [] ⟨[strLit "z"], [], true⟩ 3 2 rfl

/-- **C9 (amended).** When reading a (non-empty) file fails after the files
before it were processed cleanly, `calculateHashes` returns an `IoError`
whose message is exactly ``Error reading file: `<path>` `` followed by a
**newline** and `The file might be inaccessible, or might have been
modified, moved, or deleted` — with no trailing period (the claim's
single-line, period-terminated template does not match the source). -/
theorem C9_read_error_message (sha1 : List Nat → List Nat) (xs ys : List JSFile)
    (f : JSFile) (totalSize blockSize : Nat) (st : HashState)
    (hxsok : xs.foldlM (processFile sha1 blockSize)
      (initHashState totalSize blockSize) = .ok st)
    (hne : f.contents.length ≠ 0) (herr : f.readError = true) :
    calculateHashes sha1 (xs ++ f :: ys) totalSize blockSize =
      .error (.ioError (readErrorMessage (List.intercalate (strLit "/") f.path))) := by
  unfold calculateHashes
  rw [List.foldlM_append, hxsok]
  have hpf : processFile sha1 blockSize st f =
      .error (.ioError (readErrorMessage (List.intercalate (strLit "/") f.path))) := by
    unfold processFile
    rw [if_neg hne, if_pos herr]
  simp only [bind, Except.bind, List.foldlM_cons, hpf]

/-- Witness for C9: a one-byte unreadable file produces exactly the
newline-separated message for its path. -/
theorem C9_read_error_message_witness :
    calculateHashes (fun _ => List.replicate 20 0)
        [⟨[strLit "a.txt"], [1], true⟩] 1 16384 =
      .error (.ioError (readErrorMessage (strLit "a.txt"))) := by
  have h := C9_read_error_message (fun _ => List.replicate 20 0) [] []
    ⟨[strLit "a.txt"], [1], true⟩ 1 16384 (initHashState 1 16384) rfl (by decide) rfl
  simpa using h

/-- **C9 counterexample.** The message the code produces for path `a.txt`
is not the claim's template: the code joins the two sentences with a
newline (no `. ` after the backtick) and ends without a period. -/
theorem C9_claim_counterexample :
    readErrorMessage (strLit "a.txt") ≠
      strLit "Error reading file: `a.txt`. The file might be inaccessible, or might have been modified, moved, or deleted." := by
  decide


end TorrentCreator
